import Mathlib

/-!
Verification of the CoAP server core of arendonc2/cliente-servidor-sensor.

The development shallowly embeds the C sources:

* src/coap_server/server.c               (volatile variant)
* src/coap_server/server_persist_clean.c (persistent variant)
* src/sensorDistancia/coap_min.h         (Arduino-side client builder)

Byte buffers are modelled as `List Nat` (each element one octet; `uint8_t`
parameters of the C functions are therefore plain `Nat`s already reduced to
a byte by their callers, and the model applies the same `&&& 255` casts the
C performs).  C strings are modelled as byte lists; where the C reads a
buffer through `%s`/`strcmp`/`strlen` the model cuts the list at the first
0 byte (`cstr`).  Fallible C functions returning `-1`/`0` are modelled with
`Option`/`Bool`.  File contents are byte lists; `fopen` failure of a read
is equivalent (for the code under study) to an empty file, and the two
write outcomes of the persistent store are made explicit Booleans.  The
`fgets` line buffer of 2048 bytes means the C reads files in chunks of at
most 2047 bytes — a longer line arrives split across several chunks — and
the model reproduces exactly that: `fgets_chunk` is one `fgets(line, 2048,
f)` call, `fgets_chunks` the sequence of calls until EOF, and
`read_last_line` folds over those chunks the way the C loop folds over its
`line` buffer.
-/

set_option maxRecDepth 4000
set_option maxHeartbeats 1000000

namespace CoapModel

/-- Bytes of an ASCII string literal, used for the fixed texts of the C sources. -/
def ascii (s : String) : List Nat := s.data.map Char.toNat

/-- Value of a NUL-terminated C string stored in a byte buffer: the bytes
before the first 0 byte.  Applied wherever the C reads data through
`%s`, `strcmp` or `strlen`. -/
def cstr (l : List Nat) : List Nat := l.takeWhile (fun c => c ≠ 0)

/-! ## Option nibble codec (shared by both server variants)

`read_nibble_ext` embeds `read_nibble_ext` (server.c:61) = `read_ext`
(server_persist_clean.c:131): resolving a 4-bit option delta/length nibble,
consuming extension bytes from the byte stream.  Returns the resolved value
together with the remaining stream, or `none` for the reserved nibble 15 or
a truncated extension. -/

def read_nibble_ext (v : Nat) (rest : List Nat) : Option (Nat × List Nat) :=
  if v < 13 then some (v, rest)
  else if v = 13 then
    match rest with
    | [] => none
    | b :: r => some (13 + b, r)
  else if v = 14 then
    match rest with
    | b0 :: b1 :: r => some (269 + ((b0 <<< 8) ||| b1), r)
    | _ => none
  else none

/-- Encoding side of the three-tier nibble scheme, as written (twice, once
for the delta and once for the length, with identical arithmetic) inside
`add_option` of both server variants: values below 13 are literal, below
269 use nibble 13 plus one extension byte, otherwise nibble 14 plus two
big-endian extension bytes.  The C computes the delta as a signed `int`;
the embedding covers the non-negative values the callers produce. -/
def encode_nibble (v : Nat) : Nat × List Nat :=
  if v < 13 then (v, [])
  else if v < 269 then (13, [v - 13])
  else (14, [((v - 269) >>> 8) &&& 255, (v - 269) &&& 255])

/-! ## Uri-Path accumulation

`append_uri_segment` embeds `append_uri_segment`
(server_persist_clean.c:138): append one Uri-Path segment to the path
buffer of capacity 128, preceded by a slash when the buffer is non-empty.
server.c builds the same string with `strncat` calls; on every NUL-free
path of joined length below 128 (the only defined-behaviour region of the
strncat version, and the region all theorems below live in) the two
variants agree. -/

def append_uri_segment (dst seg : List Nat) : List Nat :=
  if seg = [] then dst
  else
    let withSlash := if dst ≠ [] ∧ dst.length < 127 then dst ++ [47] else dst
    let copy := if withSlash.length + seg.length ≥ 128
                then 128 - 1 - withSlash.length else seg.length
    withSlash ++ seg.take copy

/-! ## Message parsing

`parse_opts_fuel` embeds the option loop of `coap_parse` (server.c:90,
server_persist_clean.c:162): repeatedly read an option header byte until
the buffer is exhausted or the payload marker 0xFF is reached; resolve the
delta and length nibbles, check the value against the remaining buffer,
record Uri-Path (option 11) segments, and skip the value.  The C loop
advances a pointer by at least one byte per iteration; the fuel argument
(instantiated with the buffer length, an upper bound on the number of
iterations) makes that termination measure explicit while keeping the
function kernel-computable. -/

def parse_opts_fuel : Nat → List Nat → Nat → List Nat → Option (List Nat × Option (List Nat))
  | _, [], _, path => some (path, none)
  | 0, _ :: _, _, _ => none
  | fuel + 1, b :: rest, last, path =>
    if b = 255 then some (path, some rest)
    else
      match read_nibble_ext ((b >>> 4) &&& 15) rest with
      | none => none
      | some (d, r1) =>
        match read_nibble_ext (b &&& 15) r1 with
        | none => none
        | some (l, r2) =>
          if r2.length < l then none
          else
            parse_opts_fuel fuel (r2.drop l) (last + d)
              (if last + d = 11 then append_uri_segment path (r2.take l) else path)

/-- Option loop of `coap_parse`, starting from the byte stream after the
token.  Returns the accumulated Uri-Path and the payload (`none` when no
0xFF marker is present, `some` of the bytes after the marker otherwise). -/
def parse_opts (bytes : List Nat) (last : Nat) (path : List Nat) :
    Option (List Nat × Option (List Nat)) :=
  parse_opts_fuel bytes.length bytes last path

/-- Decoded CoAP request, mirroring `coap_req_t` of both server variants.
The C represents an absent payload by a NULL pointer with length 0; the
embedding uses `Option`. -/
structure coap_req where
  type : Nat
  tkl : Nat
  code : Nat
  mid : Nat
  token : List Nat
  uri_path : List Nat
  payload : Option (List Nat)
deriving Repr, DecidableEq

/-- Embeds `coap_parse` (server.c:74 = server_persist_clean.c:148): header
checks (length, version), token extraction, option loop, payload. -/
def coap_parse (buf : List Nat) : Option coap_req :=
  if buf.length < 4 then none
  else
    let b0 := buf.getD 0 0
    if (b0 >>> 6) &&& 3 ≠ 1 then none
    else
      let tkl := b0 &&& 15
      if 4 + tkl > buf.length ∨ tkl > 8 then none
      else
        match parse_opts (buf.drop (4 + tkl)) 0 [] with
        | none => none
        | some (path, payload) =>
          some { type := (b0 >>> 4) &&& 3
                 tkl := tkl
                 code := buf.getD 1 0
                 mid := (buf.getD 2 0) <<< 8 ||| buf.getD 3 0
                 token := (buf.drop 4).take tkl
                 uri_path := path
                 payload := payload }

/-! ## Response building -/

/-- Embeds `add_option` (server.c:126 = server_persist_clean.c:182): encode
one option header (delta from `last` to `number`, value length) plus the
value, against the remaining capacity `cap`.  Returns the produced bytes
(their length is the `need` the C returns) or `none` for `BufferTooSmall`. -/
def add_option (cap : Nat) (last number : Nat) (val : List Nat) : Option (List Nat) :=
  if cap < 1 then none
  else
    let dl := encode_nibble (number - last)
    let ll := encode_nibble val.length
    let need := 1 + dl.2.length + ll.2.length + val.length
    if cap < need then none
    else some (((dl.1 <<< 4) ||| ll.1) :: (dl.2 ++ ll.2 ++ val))

/-- Embeds `build_response` (server.c:157) = `build_resp`
(server_persist_clean.c:203): 4-byte header (ACK for a CON request, NON
otherwise), token echo, one Content-Format option (number 12, value 0),
optional payload after a 0xFF marker.  Returns `none` where the C returns
length 0 (`BufferTooSmall`).  The C takes the token as a pointer plus the
separately supplied length `tkl` and copies exactly `tkl` bytes; the
embedding fuses the two into the token list. -/
def build_response (cap : Nat) (req_type : Nat) (tok : List Nat)
    (mid code : Nat) (payload : List Nat) : Option (List Nat) :=
  let tkl := tok.length
  if cap < 4 + tkl then none
  else
    let type := if req_type = 0 then 2 else 1
    let hdr := [(1 <<< 6) ||| (type <<< 4) ||| (tkl &&& 15),
                code, (mid >>> 8) &&& 255, mid &&& 255]
    match add_option (cap - (4 + tkl)) 0 12 [0] with
    | none => none
    | some opt =>
      if payload = [] then some (hdr ++ tok ++ opt)
      else if 4 + tkl + opt.length + 1 + payload.length > cap then none
      else some (hdr ++ tok ++ opt ++ 255 :: payload)

/-- Capacity needed by `build_response` for a complete message: header,
token, the two Content-Format option bytes, and marker plus payload when a
payload is present. -/
def resp_needed (tok payload : List Nat) : Nat :=
  4 + tok.length + 2 + (if payload = [] then 0 else 1 + payload.length)

/-- The complete datagram `build_response` emits when the capacity
suffices. -/
def resp_bytes (req_type : Nat) (tok : List Nat) (mid code : Nat)
    (payload : List Nat) : List Nat :=
  let type := if req_type = 0 then 2 else 1
  [(1 <<< 6) ||| (type <<< 4) ||| (tok.length &&& 15),
   code, (mid >>> 8) &&& 255, mid &&& 255]
  ++ tok ++ [(12 <<< 4) ||| 1, 0]
  ++ (if payload = [] then [] else 255 :: payload)

/-! ## Arduino-side client builder -/

/-- One option as written by the `addOpt` lambda inside `coapmin::buildPost`
(coap_min.h:23): a single header byte `uint8_t((delta << 4) | (len & 0x0F))`
followed by the raw value bytes.  No extension bytes are ever produced. -/
def addOpt_bytes (delta : Nat) (val : List Nat) : List Nat :=
  (((delta <<< 4) ||| (val.length &&& 15)) &&& 255) :: val

/-- Embeds `coapmin::buildPost` (coap_min.h:7): header (ver 1, CON, TKL 2,
code POST), message id, a two-byte token equal to the message id, up to two
Uri-Path options, a Content-Format option with value 50, then the payload
marker and the JSON payload.  `path1`/`path2` are C strings; the C emits a
segment when the pointer is non-null and the first character is non-zero,
which for the NUL-free lists of the theorems below is non-emptiness. -/
def buildPost (path1 path2 json : List Nat) (msgId : Nat) : List Nat :=
  [(1 <<< 6) ||| (0 <<< 4) ||| 2, 2, (msgId >>> 8) &&& 255, msgId &&& 255,
   (msgId >>> 8) &&& 255, msgId &&& 255]
  ++ (if path1 = [] then [] else addOpt_bytes 11 path1)
  ++ (if path2 = [] then [] else addOpt_bytes (if path1 = [] then 11 else 0) path2)
  ++ addOpt_bytes (12 - (if path1 = [] ∧ path2 = [] then 0 else 11)) [50]
  ++ 255 :: json

/-! ## Persistent resource store (server_persist_clean.c) -/

/-- Embeds `rstrip` (server_persist_clean.c:73): remove the trailing run of
carriage returns and line feeds of a string. -/
def rstrip (s : List Nat) : List Nat :=
  (s.reverse.dropWhile (fun c => c = 10 || c = 13)).reverse

/-- One call of `fgets(line, 2048, f)` positioned at the given remaining
file content: read at most `n` (= 2047) bytes, stopping right after a
newline.  A line longer than the buffer therefore arrives split into
chunks. -/
def fgets_chunk : Nat → List Nat → List Nat
  | 0, _ => []
  | _, [] => []
  | n + 1, c :: rest => if c = 10 then [10] else c :: fgets_chunk n rest

/-- The sequence of chunks the `fgets` loop of `read_last_line` hands to
its body, given the file content; `fgets` returns NULL exactly at end of
file.  Every chunk consumes at least one byte, so the content length
bounds the number of iterations; the fuel argument makes that measure
explicit while keeping the function kernel-computable. -/
def fgets_chunks_fuel : Nat → List Nat → List (List Nat)
  | 0, _ => []
  | f + 1, content =>
    if content = [] then []
    else
      fgets_chunk 2047 content ::
        fgets_chunks_fuel f (content.drop (fgets_chunk 2047 content).length)

/-- All `fgets` chunks of a file's content. -/
def fgets_chunks (content : List Nat) : List (List Nat) :=
  fgets_chunks_fuel content.length content

/-- Body of the scan loop of `read_last_line`: keep a chunk that is still
non-empty after C-string reading and CR/LF stripping.  Each chunk is read
back as a C string, so bytes from the first NUL on are invisible to
`rstrip` (which uses `strlen`) and to the `snprintf` that stores it. -/
def rll_step (acc ln : List Nat) : List Nat :=
  let s := rstrip (cstr ln)
  if s = [] then acc else s

/-- Embeds `read_last_line` (server_persist_clean.c:79): scan the file in
`fgets` chunks of at most 2047 bytes, keep the last chunk that is
non-empty after `rstrip`, return `none` when there is none (which also
covers a missing file). -/
def read_last_line (content : List Nat) : Option (List Nat) :=
  let last := (fgets_chunks content).foldl rll_step []
  if last = [] then none else some last

/-- Bytes of the marker searched by `extract_state`. -/
def payload_tag : List Nat := ascii "payload="

/-- Embeds the `strstr(line, "payload=")` of `extract_state`: the suffix
after the first occurrence of the tag, or `none` when the tag does not
occur. -/
def find_after_tag : List Nat → Option (List Nat)
  | [] => none
  | c :: t =>
    if payload_tag.isPrefixOf (c :: t) then some ((c :: t).drop payload_tag.length)
    else find_after_tag t

/-- Embeds `extract_state` (server_persist_clean.c:96): what follows the
first `payload=` if present, otherwise the whole line. -/
def extract_state (line : List Nat) : List Nat :=
  match find_after_tag line with
  | some rest => rest
  | none => line

/-- The two files of the persistent store. -/
structure FS where
  cur : List Nat
  hist : List Nat
deriving Repr, DecidableEq

/-- Embeds `write_current_and_history` (server_persist_clean.c:105).  The C
overwrites the current-state file and, only when that succeeded, appends
one `<iso> payload=<value>` line to the history file, returning 0 on full
success and -1 otherwise.  `curOk`/`histOk` are the environment outcomes of
the two writes (fopen plus fprintf); a write that fails leaves its file as
it was.  `iso` is the `strftime`-formatted UTC timestamp, supplied by the
environment.  Result: (success, files, current write attempted, history
write attempted). -/
def write_current_and_history (curOk histOk : Bool) (fs : FS) (iso value : List Nat) :
    Bool × FS × Bool × Bool :=
  if ¬curOk then (false, fs, true, false)
  else
    let fs1 : FS := { cur := cstr value ++ [10], hist := fs.hist }
    if ¬histOk then (false, fs1, true, true)
    else (true, { cur := fs1.cur,
                  hist := fs.hist ++ cstr iso ++ ascii " payload=" ++ cstr value ++ [10] },
          true, true)

/-! ## Request dispatchers

Both dispatchers receive the decoded method code, the raw Uri-Path bytes,
and the body buffer built in main from the payload (at most 1023 bytes,
NUL-terminated); `c_body` below performs that truncation.  Every `%s` read
and `strcmp` of the C goes through `cstr`; every `snprintf` into the
1200-byte `resp` buffer truncates to 1199 bytes. -/

/-- The `body` buffer both mains build from the decoded payload
(server.c:222, server_persist_clean.c:256): at most 1023 payload bytes,
read back as a C string. -/
def c_body (payload : List Nat) : List Nat := cstr (payload.take 1023)

/-- Embeds the dispatch block of `main` in server.c (lines 231-262),
acting on the in-memory state `st` (`g_state`).  Returns (response code,
response body, new state). -/
def vol_dispatch (code : Nat) (path body st : List Nat) : Nat × List Nat × List Nat :=
  let p := cstr path
  if p = ascii "echo" ∧ code = 2 then
    (0x45, (ascii "echo: " ++ cstr body).take 1199, st)
  else if p = ascii "sensor" then
    if code = 3 then (0x44, ascii "UPDATED", (cstr body).take 1023)
    else if code = 1 then (0x45, (cstr st).take 1199, st)
    else (0x85, ascii "METHOD_NOT_ALLOWED", st)
  else (0x84, ascii "NOT_FOUND", st)

/-- Embeds the dispatch block of `main` in server_persist_clean.c (lines
264-297), acting on the two files.  `curOk`/`histOk`/`iso` parameterise the
environment of a write as in `write_current_and_history`.  Returns
(response code, response body, new files). -/
def persist_dispatch (code : Nat) (path body : List Nat) (fs : FS)
    (curOk histOk : Bool) (iso : List Nat) : Nat × List Nat × FS :=
  let p := cstr path
  if code = 1 ∧ p = ascii "sensor" then
    match read_last_line fs.cur with
    | some line => (0x45, line.take 1199, fs)
    | none =>
      match read_last_line fs.hist with
      | some line => (0x45, (extract_state line).take 1199, fs)
      | none => (0x45, ascii "NO_DATA", fs)
  else if code = 2 ∧ p = ascii "echo" then
    let w := write_current_and_history curOk histOk fs iso (cstr body)
    if w.1 then (0x45, (ascii "echo: " ++ cstr body).take 1199, w.2.1)
    else (0xA0, ascii "WRITE_FAIL", w.2.1)
  else if code = 3 ∧ p = ascii "sensor" then
    let w := write_current_and_history curOk histOk fs iso (cstr body)
    if w.1 then (0x44, ascii "UPDATED", w.2.1)
    else (0xA0, ascii "WRITE_FAIL", w.2.1)
  else (0x84, ascii "NOT_FOUND", fs)

/-! ## Arithmetic helpers for the bit operations of the C sources -/

lemma and_two_pow_sub_one (n k : Nat) : n &&& (2 ^ k - 1) = n % 2 ^ k := by
  apply Nat.eq_of_testBit_eq
  intro i
  rw [Nat.testBit_land, Nat.testBit_two_pow_sub_one, Nat.testBit_mod_two_pow,
    Bool.and_comm]

lemma and_fifteen (n : Nat) : n &&& 15 = n % 16 := by
  have h := and_two_pow_sub_one n 4
  norm_num at h
  exact h

lemma and_255 (n : Nat) : n &&& 255 = n % 256 := by
  have h := and_two_pow_sub_one n 8
  norm_num at h
  exact h

lemma testBit_two_pow_mul_add (a b k i : Nat) (hb : b < 2 ^ k) :
    (2 ^ k * a + b).testBit i = if i < k then b.testBit i else a.testBit (i - k) := by
  by_cases h : i < k
  · rw [if_pos h, Nat.testBit_to_div_mod, Nat.testBit_to_div_mod]
    have hk : 2 ^ k * a = 2 ^ i * (2 ^ (k - i) * a) := by
      rw [← mul_assoc, ← pow_add]
      congr 2
      omega
    rw [hk, Nat.mul_add_div (by positivity)]
    have h2 : 2 ^ (k - i) * a % 2 = 0 := by
      have hki : 2 ^ (k - i) = 2 * 2 ^ (k - i - 1) := by
        rw [← pow_succ']
        congr 1
        omega
      rw [hki, mul_assoc]
      exact Nat.mul_mod_right 2 _
    rw [decide_eq_decide]
    omega
  · rw [if_neg h, Nat.testBit_to_div_mod, Nat.testBit_to_div_mod]
    have hk : (2 : Nat) ^ i = 2 ^ k * 2 ^ (i - k) := by
      rw [← pow_add]
      congr 1
      omega
    rw [hk, ← Nat.div_div_eq_div_mul, Nat.mul_add_div (by positivity),
      Nat.div_eq_of_lt hb, Nat.add_zero]

lemma shiftLeft_lor_add (a b k : Nat) (hb : b < 2 ^ k) :
    (a <<< k) ||| b = 2 ^ k * a + b := by
  apply Nat.eq_of_testBit_eq
  intro i
  rw [Nat.testBit_lor, Nat.testBit_shiftLeft, testBit_two_pow_mul_add a b k i hb]
  by_cases h : i < k
  · have hik : ¬(i ≥ k) := by omega
    simp [h, hik]
  · have hik : i ≥ k := by omega
    have hbi : b.testBit i = false :=
      Nat.testBit_eq_false_of_lt
        (lt_of_lt_of_le hb (Nat.pow_le_pow_right (by norm_num) hik))
    simp [h, hik, hbi]

lemma lor_sixteen (d l : Nat) (hl : l < 16) : (d <<< 4) ||| l = 16 * d + l := by
  have h := shiftLeft_lor_add d l 4 (by omega)
  norm_num at h
  exact h

lemma lor_256 (a b : Nat) (hb : b < 256) : (a <<< 8) ||| b = 256 * a + b := by
  have h := shiftLeft_lor_add a b 8 (by omega)
  norm_num at h
  exact h

/-- Reassembling the two bytes of a 16-bit message id recovers it. -/
lemma mid_roundtrip (m : Nat) (hm : m < 65536) :
    (((m >>> 8) &&& 255) <<< 8) ||| (m &&& 255) = m := by
  rw [and_255, and_255, Nat.shiftRight_eq_div_pow]
  norm_num
  rw [lor_256 _ _ (by omega)]
  have h1 : m / 256 % 256 = m / 256 := Nat.mod_eq_of_lt (by omega)
  omega

/-! ## List and C-string helpers -/

lemma cstr_eq_self {l : List Nat} (h : 0 ∉ l) : cstr l = l := by
  induction l with
  | nil => rfl
  | cons c t ih =>
    have hc : c ≠ 0 := fun hc => h (hc ▸ List.mem_cons_self c t)
    have ht : 0 ∉ t := fun ht => h (List.mem_cons_of_mem _ ht)
    simp [cstr, List.takeWhile, hc]
    simpa [cstr] using ih ht

lemma rstrip_eq_self {l : List Nat}
    (h : ∀ c, l.getLast? = some c → c ≠ 10 ∧ c ≠ 13) : rstrip l = l := by
  induction l using List.reverseRecOn with
  | nil => rfl
  | append_singleton xs x _ =>
    have hx := h x (by rw [List.getLast?_concat])
    unfold rstrip
    rw [List.reverse_append]
    simp only [List.reverse_cons, List.reverse_nil, List.nil_append, List.singleton_append]
    rw [List.dropWhile_cons_of_neg (by simp [hx.1, hx.2])]
    simp

/-! ## Facts about the fgets chunking -/

lemma fgets_chunk_length_le : ∀ (n : Nat) (l : List Nat),
    (fgets_chunk n l).length ≤ l.length := by
  intro n
  induction n with
  | zero => intro l; simp [fgets_chunk]
  | succ n ih =>
    intro l
    cases l with
    | nil => simp [fgets_chunk]
    | cons c t =>
      unfold fgets_chunk
      split_ifs
      · simp
      · simp only [List.length_cons, Nat.add_le_add_iff_right]
        exact ih t

lemma fgets_chunk_ne_nil {n : Nat} {l : List Nat} (hn : 0 < n) (hl : l ≠ []) :
    fgets_chunk n l ≠ [] := by
  cases n with
  | zero => omega
  | succ n =>
    cases l with
    | nil => exact absurd rfl hl
    | cons c t =>
      unfold fgets_chunk
      split_ifs <;> simp

/-- A chunk that fits the capacity and reaches a newline: the whole line
plus its terminator. -/
lemma fgets_chunk_newline : ∀ {n : Nat} {l : List Nat} (rest : List Nat),
    10 ∉ l → l.length < n → fgets_chunk n (l ++ 10 :: rest) = l ++ [10] := by
  intro n l
  induction l generalizing n with
  | nil =>
    intro rest _ hn
    cases n with
    | zero => omega
    | succ n => simp [fgets_chunk]
  | cons c t ih =>
    intro rest h10 hn
    have hc : c ≠ 10 := fun h => h10 (h ▸ List.mem_cons_self c t)
    have ht : 10 ∉ t := fun h => h10 (List.mem_cons_of_mem _ h)
    cases n with
    | zero => omega
    | succ n =>
      simp only [List.cons_append]
      unfold fgets_chunk
      rw [if_neg hc, ih rest ht (by simp at hn; omega)]

/-- A chunk that consumes the rest of the file: no newline, within
capacity. -/
lemma fgets_chunk_all : ∀ {n : Nat} {l : List Nat},
    10 ∉ l → l.length ≤ n → fgets_chunk n l = l := by
  intro n l
  induction l generalizing n with
  | nil => intro _ _; cases n <;> rfl
  | cons c t ih =>
    intro h10 hn
    have hc : c ≠ 10 := fun h => h10 (h ▸ List.mem_cons_self c t)
    have ht : 10 ∉ t := fun h => h10 (List.mem_cons_of_mem _ h)
    cases n with
    | zero => simp at hn
    | succ n =>
      unfold fgets_chunk
      rw [if_neg hc, ih ht (by simp at hn; omega)]

/-- A chunk cut by the capacity: the first `n` bytes when they hold no
newline. -/
lemma fgets_chunk_take : ∀ {n : Nat} {l : List Nat},
    10 ∉ l.take n → n ≤ l.length → fgets_chunk n l = l.take n := by
  intro n
  induction n with
  | zero => intro l _ _; simp [fgets_chunk]
  | succ n ih =>
    intro l h10 hn
    cases l with
    | nil => simp at hn
    | cons c t =>
      rw [List.take_succ_cons] at h10 ⊢
      have hc : c ≠ 10 := fun h => h10 (h ▸ List.mem_cons_self c _)
      have ht : 10 ∉ t.take n := fun h => h10 (List.mem_cons_of_mem _ h)
      unfold fgets_chunk
      rw [if_neg hc, ih ht (by simp at hn; omega)]

/-- Appending a final newline to a file either leaves a chunk unchanged
(the chunk ends before the appended byte) or turns the single remaining
chunk into itself plus the newline. -/
lemma fgets_chunk_append_nl : ∀ (n : Nat) (x : List Nat), x ≠ [] →
    fgets_chunk n (x ++ [10]) = fgets_chunk n x ∨
    (fgets_chunk n (x ++ [10]) = x ++ [10] ∧ fgets_chunk n x = x) := by
  intro n x
  induction x generalizing n with
  | nil => intro h; exact absurd rfl h
  | cons c t ih =>
    intro _
    cases n with
    | zero => left; rfl
    | succ n =>
      by_cases hc : c = 10
      · left
        subst hc
        simp only [List.cons_append]
        unfold fgets_chunk
        rw [if_pos rfl, if_pos rfl]
      · cases t with
        | nil =>
          cases n with
          | zero =>
            left
            simp only [List.cons_append, List.nil_append]
            unfold fgets_chunk
            rw [if_neg hc, if_neg hc]
            rfl
          | succ n =>
            right
            constructor
            · simp only [List.cons_append, List.nil_append]
              unfold fgets_chunk
              rw [if_neg hc]
              rfl
            · unfold fgets_chunk
              rw [if_neg hc]
              rfl
        | cons d u =>
          rcases ih n (by simp) with hl | ⟨hr1, hr2⟩
          · left
            simp only [List.cons_append] at hl ⊢
            unfold fgets_chunk
            rw [if_neg hc, if_neg hc, hl]
          · right
            constructor
            · simp only [List.cons_append] at hr1 ⊢
              unfold fgets_chunk
              rw [if_neg hc, hr1]
            · unfold fgets_chunk
              rw [if_neg hc, hr2]

lemma fgets_chunks_fuel_nil (f : Nat) : fgets_chunks_fuel f [] = [] := by
  cases f <;> simp [fgets_chunks_fuel]

lemma fgets_chunks_fuel_congr : ∀ (f g : Nat) (content : List Nat),
    content.length ≤ f → content.length ≤ g →
    fgets_chunks_fuel f content = fgets_chunks_fuel g content := by
  intro f
  induction f with
  | zero =>
    intro g content h0 _
    have hc : content = [] := List.eq_nil_of_length_eq_zero (by omega)
    subst hc
    rw [fgets_chunks_fuel_nil, fgets_chunks_fuel_nil]
  | succ f ih =>
    intro g content hf hg
    by_cases hc : content = []
    · subst hc
      rw [fgets_chunks_fuel_nil, fgets_chunks_fuel_nil]
    · obtain ⟨g2, rfl⟩ : ∃ g2, g = g2 + 1 := by
        refine ⟨g - 1, ?_⟩
        have : 0 < content.length := List.length_pos.mpr hc
        omega
      unfold fgets_chunks_fuel
      rw [if_neg hc, if_neg hc]
      have h1 : 0 < (fgets_chunk 2047 content).length :=
        List.length_pos.mpr (fgets_chunk_ne_nil (by omega) hc)
      have h2 : (fgets_chunk 2047 content).length ≤ content.length :=
        fgets_chunk_length_le 2047 content
      have h3 : (content.drop (fgets_chunk 2047 content).length).length
          = content.length - (fgets_chunk 2047 content).length := by
        simp
      rw [ih g2 _ (by omega) (by omega)]

lemma fgets_chunks_step {content : List Nat} (h : content ≠ []) :
    fgets_chunks content =
      fgets_chunk 2047 content ::
        fgets_chunks (content.drop (fgets_chunk 2047 content).length) := by
  have h1 : 0 < (fgets_chunk 2047 content).length :=
    List.length_pos.mpr (fgets_chunk_ne_nil (by omega) h)
  have h2 : (fgets_chunk 2047 content).length ≤ content.length :=
    fgets_chunk_length_le 2047 content
  have h3 : (content.drop (fgets_chunk 2047 content).length).length
      = content.length - (fgets_chunk 2047 content).length := by
    simp
  obtain ⟨m, hm⟩ : ∃ m, content.length = m + 1 := by
    have : 0 < content.length := List.length_pos.mpr h
    exact ⟨content.length - 1, by omega⟩
  show fgets_chunks_fuel content.length content = _
  rw [hm]
  simp only [fgets_chunks_fuel]
  rw [if_neg h]
  show _ :: fgets_chunks_fuel m _ = _
  rw [fgets_chunks_fuel_congr m
    ((content.drop (fgets_chunk 2047 content).length).length) _ (by omega) (le_refl _)]
  rfl

/-- The value of the scan loop of `read_last_line` over a given chunk
sequence: the last chunk that is non-empty after C-string reading and
stripping, with `acc` as fallback. -/
lemma foldl_last_nonempty (lines : List (List Nat)) (acc : List Nat) :
    lines.foldl rll_step acc =
      (((lines.map (fun ln => rstrip (cstr ln))).filter
        (fun l => !l.isEmpty)).getLast?).getD acc := by
  induction lines generalizing acc with
  | nil => simp
  | cons ln rest ih =>
    simp only [List.foldl_cons, List.map_cons, List.filter_cons]
    by_cases h : rstrip (cstr ln) = []
    · have hstep : rll_step acc ln = acc := by simp [rll_step, h]
      rw [hstep]
      simpa [h] using ih acc
    · have hne : (rstrip (cstr ln)).isEmpty = false := by
        simpa [List.isEmpty_iff] using h
      have hstep : rll_step acc ln = rstrip (cstr ln) := by simp [rll_step, h]
      rw [hstep, hne]
      simp only [Bool.not_false, if_pos, ih]
      rw [List.getLast?_cons]
      simp

/-- Characterisation of `read_last_line`: the last fgets chunk of the file
that is non-empty after `rstrip`, seen as a C string. -/
lemma read_last_line_eq (content : List Nat) :
    read_last_line content =
      (((fgets_chunks content).map (fun ln => rstrip (cstr ln))).filter
        (fun l => !l.isEmpty)).getLast? := by
  unfold read_last_line
  rw [foldl_last_nonempty]
  cases h : (((fgets_chunks content).map (fun ln => rstrip (cstr ln))).filter
      (fun l => !l.isEmpty)).getLast? with
  | none => simp
  | some x =>
    have hx : x ∈ (((fgets_chunks content).map (fun ln => rstrip (cstr ln))).filter
        (fun l => !l.isEmpty)).getLast? := by
      simp [h]
    obtain ⟨hne, hxe⟩ := List.mem_getLast?_eq_getLast hx
    have hmem : x ∈ ((fgets_chunks content).map (fun ln => rstrip (cstr ln))).filter
        (fun l => !l.isEmpty) := hxe ▸ List.getLast_mem hne
    have : x ≠ [] := by
      have := List.of_mem_filter hmem
      simpa [List.isEmpty_iff] using this
    simp [this]

/-! ## Facts about the option loop -/

lemma read_nibble_ext_length {v : Nat} {rest : List Nat} {n : Nat} {r : List Nat}
    (h : read_nibble_ext v rest = some (n, r)) : r.length ≤ rest.length := by
  unfold read_nibble_ext at h
  split_ifs at h
  · cases h
    exact le_refl _
  · cases rest with
    | nil => cases h
    | cons b r' =>
      cases h
      simp
  · cases rest with
    | nil => cases h
    | cons b0 r' =>
      cases r' with
      | nil => cases h
      | cons b1 r'' =>
        cases h
        simp
        omega

lemma read_nibble_ext_append {v : Nat} {rest : List Nat} {n : Nat} {r : List Nat}
    (x : List Nat) (h : read_nibble_ext v rest = some (n, r)) :
    read_nibble_ext v (rest ++ x) = some (n, r ++ x) := by
  unfold read_nibble_ext at h ⊢
  split_ifs at h ⊢
  · cases h
    rfl
  · cases rest with
    | nil => cases h
    | cons b r' =>
      cases h
      rfl
  · cases rest with
    | nil => cases h
    | cons b0 r' =>
      cases r' with
      | nil => cases h
      | cons b1 r'' =>
        cases h
        rfl

lemma parse_opts_fuel_congr :
    ∀ (f g : Nat) (bytes : List Nat) (last : Nat) (path : List Nat),
      bytes.length ≤ f → bytes.length ≤ g →
      parse_opts_fuel f bytes last path = parse_opts_fuel g bytes last path := by
  intro f
  induction f with
  | zero =>
    intro g bytes last path h0 _
    have hb : bytes = [] := List.eq_nil_of_length_eq_zero (by omega)
    subst hb
    cases g <;> rfl
  | succ f ih =>
    intro g bytes last path hf hg
    cases bytes with
    | nil => cases g <;> rfl
    | cons b rest =>
      simp only [List.length_cons] at hf hg
      obtain ⟨g', rfl⟩ : ∃ g', g = g' + 1 := ⟨g - 1, by omega⟩
      simp only [parse_opts_fuel]
      by_cases hb : b = 255
      · simp [hb]
      · simp only [if_neg hb]
        cases h1 : read_nibble_ext ((b >>> 4) &&& 15) rest with
        | none => rfl
        | some dr =>
          obtain ⟨d, r1⟩ := dr
          dsimp only
          cases h2 : read_nibble_ext (b &&& 15) r1 with
          | none => rfl
          | some lr =>
            obtain ⟨l, r2⟩ := lr
            dsimp only
            by_cases hlen : r2.length < l
            · simp [hlen]
            · simp only [if_neg hlen]
              have e1 := read_nibble_ext_length h1
              have e2 := read_nibble_ext_length h2
              have e3 : (List.drop l r2).length = r2.length - l := by
                simp
              exact ih g' _ _ _ (by omega) (by omega)

lemma parse_opts_fuel_append_marker :
    ∀ (f : Nat) (bs : List Nat) (last : Nat) (path p : List Nat),
      bs.length ≤ f → parse_opts_fuel f bs last path = some (p, none) →
      parse_opts_fuel (f + 1) (bs ++ [255]) last path = some (p, some []) := by
  intro f
  induction f with
  | zero =>
    intro bs last path p h0 h
    have hb : bs = [] := List.eq_nil_of_length_eq_zero (by omega)
    subst hb
    simp only [parse_opts_fuel] at h
    cases h
    simp [parse_opts_fuel]
  | succ f ih =>
    intro bs last path p hf h
    cases bs with
    | nil =>
      simp only [parse_opts_fuel] at h
      cases h
      simp [parse_opts_fuel]
    | cons b rest =>
      simp only [List.length_cons] at hf
      by_cases hb : b = 255
      · subst hb
        simp [parse_opts_fuel] at h
      · simp only [parse_opts_fuel, if_neg hb] at h
        simp only [List.cons_append, parse_opts_fuel, if_neg hb, List.append_eq]
        cases h1 : read_nibble_ext ((b >>> 4) &&& 15) rest with
        | none =>
          rw [h1] at h
          cases h
        | some dr =>
          obtain ⟨d, r1⟩ := dr
          rw [h1] at h
          dsimp only at h
          rw [read_nibble_ext_append [255] h1]
          dsimp only
          cases h2 : read_nibble_ext (b &&& 15) r1 with
          | none =>
            rw [h2] at h
            cases h
          | some lr =>
            obtain ⟨l, r2⟩ := lr
            rw [h2] at h
            dsimp only at h
            rw [read_nibble_ext_append [255] h2]
            dsimp only
            by_cases hlen : r2.length < l
            · rw [if_pos hlen] at h
              cases h
            · rw [if_neg hlen] at h
              have hnlen : ¬(r2 ++ [255]).length < l := by
                simp
                omega
              rw [if_neg hnlen]
              rw [List.take_append_of_le_length (by omega),
                List.drop_append_of_le_length (by omega)]
              have e1 := read_nibble_ext_length h1
              have e2 := read_nibble_ext_length h2
              have e3 : (List.drop l r2).length = r2.length - l := by
                simp
              exact ih _ _ _ _ (by omega) h

/-- Appending the payload marker as the final byte of a request whose
option section parsed without a marker is parsed as an empty payload. -/
lemma parse_opts_append_marker {bs : List Nat} {last : Nat} {path p : List Nat}
    (h : parse_opts bs last path = some (p, none)) :
    parse_opts (bs ++ [255]) last path = some (p, some []) := by
  unfold parse_opts at h ⊢
  have hl : (bs ++ [255]).length = bs.length + 1 := by simp
  rw [hl]
  exact parse_opts_fuel_append_marker bs.length bs last path p (le_refl _) h

lemma parse_opts_nil (last : Nat) (path : List Nat) :
    parse_opts [] last path = some (path, none) := rfl

lemma parse_opts_marker (json : List Nat) (last : Nat) (path : List Nat) :
    parse_opts (255 :: json) last path = some (path, some json) := by
  unfold parse_opts
  simp [parse_opts_fuel]

/-- One iteration of the option loop on an option whose delta and length
both fit in a literal nibble (the only options the Arduino client emits). -/
lemma parse_opts_cons_short {d l : Nat} (hd : d < 13) (hl : l < 13)
    {seg : List Nat} (rest : List Nat) (hseg : seg.length = l)
    (last : Nat) (path : List Nat) :
    parse_opts ((16 * d + l) :: (seg ++ rest)) last path =
      parse_opts rest (last + d)
        (if last + d = 11 then append_uri_segment path seg else path) := by
  unfold parse_opts
  have hb : (16 * d + l) ≠ 255 := by omega
  have hlen : ((16 * d + l) :: (seg ++ rest)).length = (seg.length + rest.length) + 1 := by
    simp
  rw [hlen]
  simp only [parse_opts_fuel, if_neg hb]
  have hnib1 : (16 * d + l) >>> 4 &&& 15 = d := by
    rw [Nat.shiftRight_eq_div_pow, and_fifteen]
    norm_num
    omega
  have hnib2 : (16 * d + l) &&& 15 = l := by
    rw [and_fifteen]
    omega
  rw [hnib1, hnib2]
  have hr1 : read_nibble_ext d (seg ++ rest) = some (d, seg ++ rest) := by
    unfold read_nibble_ext
    rw [if_pos hd]
  have hr2 : read_nibble_ext l (seg ++ rest) = some (l, seg ++ rest) := by
    unfold read_nibble_ext
    rw [if_pos hl]
  rw [hr1]
  dsimp only
  rw [hr2]
  dsimp only
  have hnlen : ¬(seg ++ rest).length < l := by
    simp [hseg]
  rw [if_neg hnlen]
  rw [← hseg, List.take_left, List.drop_left]
  exact parse_opts_fuel_congr _ _ _ _ _ (by simp) (le_refl _)

/-! ## Facts about Uri-Path accumulation -/

lemma append_uri_segment_nil {seg : List Nat} (h : seg ≠ [])
    (hlen : seg.length ≤ 127) : append_uri_segment [] seg = seg := by
  unfold append_uri_segment
  rw [if_neg h]
  simp only [ne_eq, not_true_eq_false, false_and, if_false, List.length_nil]
  rw [if_neg (by omega), List.take_of_length_le (le_refl _), List.nil_append]

lemma append_uri_segment_cons {dst seg : List Nat} (hd : dst ≠ []) (hs : seg ≠ [])
    (hlen : dst.length + 1 + seg.length ≤ 127) :
    append_uri_segment dst seg = dst ++ 47 :: seg := by
  unfold append_uri_segment
  rw [if_neg hs]
  dsimp only
  rw [if_pos (show dst ≠ [] ∧ dst.length < 127 from ⟨hd, by omega⟩)]
  have hc : ¬((dst ++ [47]).length + seg.length ≥ 128) := by
    simp
    omega
  rw [if_neg hc, List.take_length]
  simp

/-! ## Derived facts used by the claim theorems -/

lemma resp_needed_nil {tok payload : List Nat} (h : payload = []) :
    resp_needed tok payload = 4 + tok.length + 2 := by
  simp [resp_needed, h]

lemma resp_needed_pos {tok payload : List Nat} (h : payload ≠ []) :
    resp_needed tok payload = 4 + tok.length + 2 + 1 + payload.length := by
  simp [resp_needed, h]
  omega

lemma add_option_cf (cap : Nat) :
    add_option cap 0 12 [0] = if cap < 2 then none else some [(12 <<< 4) ||| 1, 0] := by
  unfold add_option
  have e12 : encode_nibble (12 - 0) = (12, []) := by decide
  have e1 : encode_nibble [(0 : Nat)].length = (1, []) := by decide
  rw [e12, e1]
  dsimp only
  norm_num
  intro h
  simp [h]

/-! ## Claim theorems -/

/-- C6 (confirmed).  Each of the boundary values 12, 13, 268, 269 and
65536+268, encoded with the three-tier option encoder used by add_option
for option deltas and for option lengths, decodes back to itself with the
nibble decoder, leaving any following bytes untouched. -/
theorem nibble_boundary_roundtrip (rest : List Nat) :
    read_nibble_ext (encode_nibble 12).1 ((encode_nibble 12).2 ++ rest)
        = some (12, rest) ∧
    read_nibble_ext (encode_nibble 13).1 ((encode_nibble 13).2 ++ rest)
        = some (13, rest) ∧
    read_nibble_ext (encode_nibble 268).1 ((encode_nibble 268).2 ++ rest)
        = some (268, rest) ∧
    read_nibble_ext (encode_nibble 269).1 ((encode_nibble 269).2 ++ rest)
        = some (269, rest) ∧
    read_nibble_ext (encode_nibble (65536 + 268)).1
        ((encode_nibble (65536 + 268)).2 ++ rest) = some (65536 + 268, rest) := by
  refine ⟨?_, ?_, ?_, ?_, ?_⟩
  · have e : encode_nibble 12 = (12, []) := by decide
    rw [e]
    simp [read_nibble_ext]
  · have e : encode_nibble 13 = (13, [0]) := by decide
    rw [e]
    simp [read_nibble_ext]
  · have e : encode_nibble 268 = (13, [255]) := by decide
    rw [e]
    simp [read_nibble_ext]
  · have e : encode_nibble 269 = (14, [0, 0]) := by decide
    rw [e]
    have h0 : ((0 : Nat) <<< 8) ||| 0 = 0 := by decide
    simp [read_nibble_ext, h0]
  · have e : encode_nibble (65536 + 268) = (14, [255, 255]) := by decide
    rw [e]
    have h0 : ((255 : Nat) <<< 8) ||| 255 = 65535 := by decide
    simp [read_nibble_ext, h0]

/-- C8 (confirmed).  coap_parse rejects every buffer shorter than 4 bytes,
and every buffer whose declared token length (low nibble of byte 0)
exceeds 8 or exceeds the space left after the header. -/
theorem coap_parse_rejects_short_and_bad_tkl (buf : List Nat) :
    (buf.length < 4 → coap_parse buf = none) ∧
    ((buf.getD 0 0 &&& 15 > 8 ∨ 4 + (buf.getD 0 0 &&& 15) > buf.length) →
      coap_parse buf = none) := by
  constructor
  · intro h
    unfold coap_parse
    rw [if_pos h]
  · intro h
    unfold coap_parse
    by_cases h4 : buf.length < 4
    · rw [if_pos h4]
    · rw [if_neg h4]
      dsimp only
      by_cases hv : (buf.getD 0 0 >>> 6) &&& 3 ≠ 1
      · rw [if_pos hv]
      · rw [if_neg hv, if_pos (by omega)]

/-- C8 witness: the 4-byte buffer with declared token length 9 and a
buffer of fewer than 4 bytes are both rejected. -/
theorem coap_parse_rejects_witness :
    coap_parse [73, 1, 0, 0] = none ∧ coap_parse [64] = none :=
  ⟨(coap_parse_rejects_short_and_bad_tkl [73, 1, 0, 0]).2 (by decide),
   (coap_parse_rejects_short_and_bad_tkl [64]).1 (by decide)⟩

/-- C3 counterexample: when the current-state write fails, the history
append is never attempted, contradicting the claim that both writes are
attempted on every call. -/
theorem write_skips_history_when_current_fails :
    (write_current_and_history false true ⟨[], []⟩ [] [55]).2.2.2 = false := by
  decide

/-- C3 (corrected).  write_current_and_history always attempts the
current-state overwrite, attempts the history append exactly when the
current write succeeded, reports success if and only if both writes
succeeded, and never rolls back a successful current write when the
history append fails. -/
theorem write_current_and_history_behavior (curOk histOk : Bool) (fs : FS)
    (iso v : List Nat) :
    (write_current_and_history curOk histOk fs iso v).2.2.1 = true ∧
    (write_current_and_history curOk histOk fs iso v).2.2.2 = curOk ∧
    (write_current_and_history curOk histOk fs iso v).1 = (curOk && histOk) ∧
    (curOk = true →
      (write_current_and_history curOk histOk fs iso v).2.1.cur = cstr v ++ [10]) := by
  cases curOk <;> cases histOk <;> simp [write_current_and_history]

/-- C3 witness: with the current write succeeding and the history append
failing, the call reports failure while the current file keeps the freshly
written value. -/
theorem write_current_and_history_behavior_witness :
    (write_current_and_history true false ⟨[], []⟩ [] [55]).2.2.1 = true ∧
    (write_current_and_history true false ⟨[], []⟩ [] [55]).2.2.2 = true ∧
    (write_current_and_history true false ⟨[], []⟩ [] [55]).1 = false ∧
    (write_current_and_history true false ⟨[], []⟩ [] [55]).2.1.cur = [55, 10] := by
  have h := write_current_and_history_behavior true false ⟨[], []⟩ [] [55]
  refine ⟨h.1, h.2.1, ?_, ?_⟩
  · rw [h.2.2.1]
    decide
  · rw [h.2.2.2 rfl]
    decide

/-- C1 counterexample: in the persistent variant a DELETE (0.04) on
resource sensor is answered 4.04 NOT_FOUND, not 4.05 METHOD_NOT_ALLOWED as
the claim states for both variants. -/
theorem persist_delete_sensor_yields_404 :
    persist_dispatch 4 (ascii "sensor") [] ⟨[], []⟩ true true []
      = (0x84, ascii "NOT_FOUND", ⟨[], []⟩) ∧ (0x84 : Nat) ≠ 0x85 := by
  decide

/-- C1 (corrected).  For a successfully decoded request whose path is
sensor and whose method is neither GET nor PUT, the volatile variant
answers 4.05 METHOD_NOT_ALLOWED while the persistent variant answers 4.04
NOT_FOUND; for a path that is neither sensor nor echo both variants answer
4.04 NOT_FOUND. -/
theorem unmatched_dispatch (buf : List Nat) (r : coap_req) (st : List Nat)
    (fs : FS) (curOk histOk : Bool) (iso : List Nat)
    (hparse : coap_parse buf = some r) :
    (cstr r.uri_path = ascii "sensor" → r.code ≠ 1 → r.code ≠ 3 →
      vol_dispatch r.code r.uri_path (c_body (r.payload.getD [])) st
          = (0x85, ascii "METHOD_NOT_ALLOWED", st) ∧
      persist_dispatch r.code r.uri_path (c_body (r.payload.getD [])) fs curOk histOk iso
          = (0x84, ascii "NOT_FOUND", fs)) ∧
    (cstr r.uri_path ≠ ascii "sensor" → cstr r.uri_path ≠ ascii "echo" →
      vol_dispatch r.code r.uri_path (c_body (r.payload.getD [])) st
          = (0x84, ascii "NOT_FOUND", st) ∧
      persist_dispatch r.code r.uri_path (c_body (r.payload.getD [])) fs curOk histOk iso
          = (0x84, ascii "NOT_FOUND", fs)) := by
  have hne : ascii "sensor" ≠ ascii "echo" := by decide
  constructor
  · intro hp h1 h3
    constructor
    · unfold vol_dispatch
      rw [hp]
      rw [if_neg (by simp [hne]), if_pos rfl, if_neg (by simpa using h3),
        if_neg (by simpa using h1)]
    · unfold persist_dispatch
      rw [hp]
      rw [if_neg (by simp [h1]), if_neg (by simp [hne]), if_neg (by simp [h3])]
  · intro hs he
    constructor
    · unfold vol_dispatch
      rw [if_neg (by simp [he]), if_neg hs]
    · unfold persist_dispatch
      rw [if_neg (by simp [hs]), if_neg (by simp [he]), if_neg (by simp [hs])]

/-- C1 witness: a decoded DELETE on sensor gets 4.05 from the volatile and
4.04 from the persistent dispatcher, and a decoded GET on an unknown path
gets 4.04 from both. -/
theorem unmatched_dispatch_witness :
    (vol_dispatch 4 (ascii "sensor") (c_body []) [] = (0x85, ascii "METHOD_NOT_ALLOWED", []) ∧
      persist_dispatch 4 (ascii "sensor") (c_body []) ⟨[], []⟩ true true []
        = (0x84, ascii "NOT_FOUND", ⟨[], []⟩)) ∧
    (vol_dispatch 1 (ascii "unknown") (c_body []) [] = (0x84, ascii "NOT_FOUND", []) ∧
      persist_dispatch 1 (ascii "unknown") (c_body []) ⟨[], []⟩ true true []
        = (0x84, ascii "NOT_FOUND", ⟨[], []⟩)) := by
  constructor
  · exact (unmatched_dispatch ([64, 4, 0, 0, 182] ++ ascii "sensor")
      ⟨0, 0, 4, 0, [], ascii "sensor", none⟩ [] ⟨[], []⟩ true true []
      (by decide)).1 (by decide) (by decide) (by decide)
  · exact (unmatched_dispatch ([64, 1, 0, 0, 183] ++ ascii "unknown")
      ⟨0, 0, 1, 0, [], ascii "unknown", none⟩ [] ⟨[], []⟩ true true []
      (by decide)).2 (by decide) (by decide)

/-- C7 (confirmed).  build_response is all-or-nothing: whenever the
capacity is below what header, token, Content-Format option, marker and
payload need, it returns no output, and otherwise it returns exactly the
complete message, whose length equals that need — never a positive length
describing a truncated message. -/
theorem build_response_never_truncates (cap req_type : Nat) (tok : List Nat)
    (mid code : Nat) (payload : List Nat) :
    build_response cap req_type tok mid code payload
        = (if resp_needed tok payload ≤ cap
           then some (resp_bytes req_type tok mid code payload) else none) ∧
    (resp_bytes req_type tok mid code payload).length = resp_needed tok payload := by
  constructor
  · unfold build_response
    dsimp only
    rw [add_option_cf]
    by_cases h1 : cap < 4 + tok.length
    · rw [if_pos h1]
      by_cases hp : payload = []
      · rw [if_neg (by rw [resp_needed_nil hp]; omega)]
      · rw [if_neg (by rw [resp_needed_pos hp]; omega)]
    · rw [if_neg h1]
      by_cases h2 : cap - (4 + tok.length) < 2
      · rw [if_pos h2]
        dsimp only
        by_cases hp : payload = []
        · rw [if_neg (by rw [resp_needed_nil hp]; omega)]
        · rw [if_neg (by rw [resp_needed_pos hp]; omega)]
      · rw [if_neg h2]
        dsimp only
        by_cases hp : payload = []
        · have hcond : resp_needed tok payload ≤ cap := by
            rw [resp_needed_nil hp]
            omega
          rw [if_pos hp, if_pos hcond]
          subst hp
          simp [resp_bytes]
        · rw [if_neg hp]
          by_cases h3 : 4 + tok.length + [(12 <<< 4) ||| 1, (0 : Nat)].length + 1
              + payload.length > cap
          · have hcond : ¬resp_needed tok payload ≤ cap := by
              rw [resp_needed_pos hp]
              simp only [List.length_cons, List.length_nil] at h3
              omega
            rw [if_pos h3, if_neg hcond]
          · have hcond : resp_needed tok payload ≤ cap := by
              rw [resp_needed_pos hp]
              simp only [List.length_cons, List.length_nil] at h3
              omega
            rw [if_neg h3, if_pos hcond]
            simp [resp_bytes, hp]
  · by_cases hp : payload = [] <;>
      simp [resp_bytes, resp_needed, hp] <;> omega

/-! ## Helpers for the body and the persisted files -/

lemma c_body_no_nul (p : List Nat) : 0 ∉ c_body p := by
  intro h
  have := List.mem_takeWhile_imp h
  simp at this

lemma c_body_cstr (p : List Nat) : cstr (c_body p) = c_body p :=
  cstr_eq_self (c_body_no_nul p)

lemma c_body_length (p : List Nat) : (c_body p).length ≤ 1023 := by
  have h1 : (c_body p).length ≤ (p.take 1023).length :=
    (List.takeWhile_prefix _).length_le
  have h2 : (p.take 1023).length ≤ 1023 := by
    rw [List.length_take]
    omega
  omega

lemma fgets_chunks_nil : fgets_chunks [] = [] := rfl

lemma rstrip_concat_nl (x : List Nat) : rstrip (x ++ [10]) = rstrip x := by
  unfold rstrip
  rw [List.reverse_append]
  simp only [List.reverse_cons, List.reverse_nil, List.nil_append, List.singleton_append]
  rw [List.dropWhile_cons_of_pos (by decide)]

lemma rstrip_cstr_concat_nl (x : List Nat) :
    rstrip (cstr (x ++ [10])) = rstrip (cstr x) := by
  unfold cstr
  rw [List.takeWhile_append]
  split_ifs with h
  · rw [show List.takeWhile (fun c => c ≠ 0) ([10] : List Nat) = [10] from by decide]
    rw [(List.takeWhile_prefix _).eq_of_length h]
    exact rstrip_concat_nl x
  · rfl

/-- Reading back a file holding exactly one newline-terminated, NUL-free,
non-empty line that fits the fgets buffer and does not end in CR or LF
yields that line. -/
lemma read_last_line_push (v : List Nat) (hv : v ≠ []) (h10 : 10 ∉ v)
    (h0 : 0 ∉ v) (h13 : v.getLast? ≠ some 13) (hlen : v.length ≤ 2046) :
    read_last_line (v ++ [10]) = some v := by
  have hch : fgets_chunk 2047 (v ++ [10]) = v ++ [10] :=
    fgets_chunk_newline [] h10 (by omega)
  have hchunks : fgets_chunks (v ++ [10]) = [v ++ [10]] := by
    rw [fgets_chunks_step (by simp), hch, List.drop_length, fgets_chunks_nil]
  have hc : cstr (v ++ [10]) = v ++ [10] := by
    apply cstr_eq_self
    intro hmem
    rcases List.mem_append.mp hmem with hmem | hmem
    · exact h0 hmem
    · simp at hmem
  have hr : rstrip v = v := by
    apply rstrip_eq_self
    intro c hcl
    constructor
    · intro hc10
      subst hc10
      have hmem : (10 : Nat) ∈ v.getLast? := Option.mem_def.mpr hcl
      obtain ⟨hne, hx⟩ := List.mem_getLast?_eq_getLast hmem
      exact h10 (hx ▸ List.getLast_mem hne)
    · intro hc13
      subst hc13
      exact h13 hcl
  unfold read_last_line
  rw [hchunks]
  simp only [List.foldl_cons, List.foldl_nil]
  have hstep : rll_step [] (v ++ [10]) = v := by
    unfold rll_step
    rw [hc, rstrip_concat_nl, hr]
    simp [hv]
  rw [hstep]
  simp [hv]

lemma rll_fold_nl_nil (acc : List Nat) :
    (fgets_chunks [10]).foldl rll_step acc = acc := by
  have hch : fgets_chunks [10] = [[10]] := by decide
  rw [hch]
  simp only [List.foldl_cons, List.foldl_nil]
  have hstep : rll_step acc [10] = acc := by
    unfold rll_step
    rw [show rstrip (cstr ([10] : List Nat)) = [] from by decide]
    simp
  rw [hstep]

/-- Appending one final newline never changes the scan value: it either
closes the final chunk (whose trailing LF the stripping removes anyway) or
forms a new blank chunk that the scan skips. -/
lemma rll_fold_append_nl : ∀ (N : Nat) (x acc : List Nat), x.length ≤ N →
    (fgets_chunks (x ++ [10])).foldl rll_step acc
      = (fgets_chunks x).foldl rll_step acc := by
  intro N
  induction N with
  | zero =>
    intro x acc h
    have hx : x = [] := List.eq_nil_of_length_eq_zero (by omega)
    subst hx
    rw [List.nil_append]
    exact rll_fold_nl_nil acc
  | succ N ih =>
    intro x acc hx
    by_cases hxe : x = []
    · subst hxe
      rw [List.nil_append]
      exact rll_fold_nl_nil acc
    · have hle := fgets_chunk_length_le 2047 x
      have hpos : 0 < (fgets_chunk 2047 x).length :=
        List.length_pos.mpr (fgets_chunk_ne_nil (by omega) hxe)
      rcases fgets_chunk_append_nl 2047 x hxe with hl | ⟨hr1, hr2⟩
      · rw [fgets_chunks_step (show x ++ [10] ≠ [] by simp), fgets_chunks_step hxe, hl,
          List.drop_append_of_le_length hle]
        simp only [List.foldl_cons]
        exact ih (x.drop (fgets_chunk 2047 x).length)
          (rll_step acc (fgets_chunk 2047 x)) (by rw [List.length_drop]; omega)
      · rw [fgets_chunks_step (show x ++ [10] ≠ [] by simp), fgets_chunks_step hxe, hr1, hr2,
          List.drop_length, List.drop_length]
        simp only [List.foldl_cons]
        have hstep : rll_step acc (x ++ [10]) = rll_step acc x := by
          unfold rll_step
          rw [rstrip_cstr_concat_nl]
        rw [hstep]

lemma read_last_line_concat_sep (x : List Nat) :
    read_last_line (x ++ [10]) = read_last_line x := by
  unfold read_last_line
  rw [rll_fold_append_nl x.length x [] (le_refl _)]

lemma read_last_line_trailing_blank (c : List Nat) (k : Nat) :
    read_last_line (c ++ List.replicate k 10) = read_last_line c := by
  induction k with
  | zero => simp
  | succ k ih =>
    rw [List.replicate_succ' k 10, ← List.append_assoc, read_last_line_concat_sep, ih]

lemma addOpt_bytes_eq (delta : Nat) (val : List Nat) (hd : delta < 13)
    (hl : val.length < 13) :
    addOpt_bytes delta val = (16 * delta + val.length) :: val := by
  unfold addOpt_bytes
  congr 1
  rw [and_fifteen, Nat.mod_eq_of_lt (by omega), lor_sixteen delta _ (by omega),
    and_255, Nat.mod_eq_of_lt (by omega)]

/-- C5 counterexample: a current-state file whose last line holds 1200
bytes is answered with only its first 1199 bytes — the 1200-byte response
buffer truncates the line, so GET does not return the last line itself. -/
theorem persist_get_truncates_long_line :
    persist_dispatch 1 (ascii "sensor") []
        ⟨List.replicate 1200 97 ++ [10], []⟩ true true []
      = (0x45, List.replicate 1199 97, ⟨List.replicate 1200 97 ++ [10], []⟩) ∧
    List.replicate 1199 97 ≠ List.replicate 1200 97 := by
  constructor
  · have hrep : List.replicate 1200 (97 : Nat) = List.replicate 1199 97 ++ [97] :=
      List.replicate_succ' 1199 97
    have hlast : (List.replicate 1200 (97 : Nat)).getLast? = some 97 := by
      rw [hrep, List.getLast?_concat]
    have hr : read_last_line (List.replicate 1200 97 ++ [10])
        = some (List.replicate 1200 97) := by
      apply read_last_line_push
      · intro h
        have h2 := congrArg List.length h
        rw [List.length_replicate, List.length_nil] at h2
        exact absurd h2 (by norm_num)
      · intro h
        exact absurd (List.eq_of_mem_replicate h) (by norm_num)
      · intro h
        exact absurd (List.eq_of_mem_replicate h) (by norm_num)
      · rw [hlast]
        intro h
        exact absurd (Option.some.inj h) (by norm_num)
      · rw [List.length_replicate]
        omega
    unfold persist_dispatch
    rw [if_pos ⟨rfl, by decide⟩]
    rw [hr]
    dsimp only
    have ht : List.take 1199 (List.replicate 1200 97) = List.replicate 1199 97 := by
      rw [List.take_replicate, show (1199 ⊓ 1200 : Nat) = 1199 from by norm_num]
    rw [ht]
  · intro h
    have h2 := congrArg List.length h
    rw [List.length_replicate, List.length_replicate] at h2
    exact absurd h2 (by norm_num)

/-- C5 (corrected).  GET sensor in the persistent variant always answers
2.05 and never touches the files; its body is the last line of the
current-state file if one exists, else the state extracted from the last
history line if one exists, else NO_DATA — each file-derived body
truncated to the 1199 bytes the response buffer holds. -/
theorem persist_get_sensor_fallback (fs : FS) (body : List Nat)
    (curOk histOk : Bool) (iso : List Nat) :
    (∀ line, read_last_line fs.cur = some line →
      persist_dispatch 1 (ascii "sensor") body fs curOk histOk iso
        = (0x45, line.take 1199, fs)) ∧
    (read_last_line fs.cur = none → ∀ line, read_last_line fs.hist = some line →
      persist_dispatch 1 (ascii "sensor") body fs curOk histOk iso
        = (0x45, (extract_state line).take 1199, fs)) ∧
    (read_last_line fs.cur = none → read_last_line fs.hist = none →
      persist_dispatch 1 (ascii "sensor") body fs curOk histOk iso
        = (0x45, ascii "NO_DATA", fs)) := by
  refine ⟨?_, ?_, ?_⟩
  · intro line h
    unfold persist_dispatch
    rw [if_pos ⟨rfl, by decide⟩, h]
  · intro hc line h
    unfold persist_dispatch
    rw [if_pos ⟨rfl, by decide⟩, hc, h]
  · intro hc hh
    unfold persist_dispatch
    rw [if_pos ⟨rfl, by decide⟩, hc, hh]

/-- C5 witness: the three fallback stages at concrete files — a current
file holding 7, an empty current file with one history entry holding 9,
and two empty files. -/
theorem persist_get_sensor_fallback_witness :
    persist_dispatch 1 (ascii "sensor") [] ⟨[55, 10], []⟩ true true []
      = (0x45, [55], ⟨[55, 10], []⟩) ∧
    persist_dispatch 1 (ascii "sensor") []
        ⟨[], ascii "2025-01-01T00:00:00Z payload=9" ++ [10]⟩ true true []
      = (0x45, [57], ⟨[], ascii "2025-01-01T00:00:00Z payload=9" ++ [10]⟩) ∧
    persist_dispatch 1 (ascii "sensor") [] ⟨[], []⟩ true true []
      = (0x45, ascii "NO_DATA", ⟨[], []⟩) := by
  refine ⟨?_, ?_, ?_⟩
  · have h := (persist_get_sensor_fallback ⟨[55, 10], []⟩ [] true true []).1
      [55] (by decide)
    rw [h]
    decide
  · have h := (persist_get_sensor_fallback
      ⟨[], ascii "2025-01-01T00:00:00Z payload=9" ++ [10]⟩ [] true true []).2.1
      (by decide) (ascii "2025-01-01T00:00:00Z payload=9") (by decide)
    rw [h]
    decide
  · exact (persist_get_sensor_fallback ⟨[], []⟩ [] true true []).2.2
      (by decide) (by decide)

/-- C10 counterexample: a single 2048-byte line does not fit the 2048-byte
fgets buffer, so read_last_line sees it as two chunks and returns the last
one — a single byte — rather than the last non-empty line the claim
describes. -/
theorem read_last_line_long_line_chunked :
    read_last_line (List.replicate 2048 97 ++ [10]) = some [97] ∧
    ([97] : List Nat) ≠ List.replicate 2048 97 := by
  constructor
  · have htake : (List.replicate 2048 (97 : Nat) ++ [10]).take 2047
        = List.replicate 2047 97 := by
      rw [List.take_append_of_le_length (by rw [List.length_replicate]; omega),
        List.take_replicate, show (2047 ⊓ 2048 : Nat) = 2047 from by norm_num]
    have hA : (10 : Nat) ∉ (List.replicate 2048 (97 : Nat) ++ [10]).take 2047 := by
      rw [htake]
      intro h
      exact absurd (List.eq_of_mem_replicate h) (by norm_num)
    have hB : 2047 ≤ (List.replicate 2048 (97 : Nat) ++ [10]).length := by
      rw [List.length_append, List.length_replicate]
      norm_num
    have hch1 : fgets_chunk 2047 (List.replicate 2048 (97 : Nat) ++ [10])
        = List.replicate 2047 97 := by
      rw [fgets_chunk_take hA hB, htake]
    have hsplit : List.replicate 2048 (97 : Nat) ++ [10]
        = List.replicate 2047 97 ++ [97, 10] := by
      rw [List.replicate_succ' 2047 97, List.append_assoc]
      rfl
    have hdrop : (List.replicate 2048 (97 : Nat) ++ [10]).drop 2047 = [97, 10] := by
      rw [hsplit,
        List.drop_append_of_le_length (by rw [List.length_replicate])]
      rw [show List.drop 2047 (List.replicate 2047 (97 : Nat)) = [] from by
        rw [List.drop_replicate]
        simp]
      rfl
    have hne1 : List.replicate 2048 (97 : Nat) ++ [10] ≠ [] := by
      intro h
      have h2 := congrArg List.length h
      rw [List.length_append, List.length_replicate] at h2
      simp at h2
    have hchunks : fgets_chunks (List.replicate 2048 97 ++ [10])
        = [List.replicate 2047 97, [97, 10]] := by
      rw [fgets_chunks_step hne1, hch1, List.length_replicate, hdrop]
      rw [show fgets_chunks [97, 10] = [[97, 10]] from by decide]
    unfold read_last_line
    rw [hchunks]
    simp only [List.foldl_cons, List.foldl_nil]
    have hrepne : List.replicate 2047 (97 : Nat) ≠ [] := by
      intro h
      have h2 := congrArg List.length h
      rw [List.length_replicate] at h2
      simp at h2
    have hst1 : rll_step [] (List.replicate 2047 97) = List.replicate 2047 97 := by
      unfold rll_step
      have hc : cstr (List.replicate 2047 (97 : Nat)) = List.replicate 2047 97 :=
        cstr_eq_self (fun h => absurd (List.eq_of_mem_replicate h) (by norm_num))
      have hlast : (List.replicate 2047 (97 : Nat)).getLast? = some 97 := by
        rw [List.replicate_succ' 2046 97, List.getLast?_concat]
      have hr : rstrip (List.replicate 2047 (97 : Nat)) = List.replicate 2047 97 := by
        apply rstrip_eq_self
        intro c hc2
        rw [hlast] at hc2
        have h97 : 97 = c := Option.some.inj hc2
        subst h97
        exact ⟨by norm_num, by norm_num⟩
      rw [hc, hr]
      simp [hrepne]
    rw [hst1]
    have hst2 : rll_step (List.replicate 2047 97) [97, 10] = [97] := by
      unfold rll_step
      rw [show rstrip (cstr ([97, 10] : List Nat)) = [97] from by decide]
      simp
    rw [hst2]
    simp
  · intro h
    have h2 := congrArg List.length h
    rw [List.length_replicate] at h2
    exact absurd h2 (by decide)

/-- C10 (corrected).  read_last_line scans the file in fgets chunks of at
most 2047 bytes (a longer line arrives in several chunks) and returns the
last chunk that is non-empty after C-string reading and CR/LF stripping —
so trailing blank lines, in any number, change nothing — and extract_state
hands back the entire chunk when it contains no payload= tag, rather than
an error or NO_DATA. -/
theorem read_last_line_lenient (c : List Nat) (k : Nat) (line : List Nat) :
    read_last_line c =
      (((fgets_chunks c).map (fun ln => rstrip (cstr ln))).filter
        (fun l => !l.isEmpty)).getLast? ∧
    read_last_line (c ++ List.replicate k 10) = read_last_line c ∧
    (find_after_tag line = none → extract_state line = line) := by
  refine ⟨read_last_line_eq c, read_last_line_trailing_blank c k, ?_⟩
  intro h
  unfold extract_state
  rw [h]

/-- C10 witness: a two-line file with three trailing blank lines, and a
history line without the payload= tag. -/
theorem read_last_line_lenient_witness :
    read_last_line (ascii "a\nb") =
      (((fgets_chunks (ascii "a\nb")).map (fun ln => rstrip (cstr ln))).filter
        (fun l => !l.isEmpty)).getLast? ∧
    read_last_line (ascii "a\nb" ++ List.replicate 3 10) = read_last_line (ascii "a\nb") ∧
    extract_state (ascii "xyz") = ascii "xyz" := by
  have h := read_last_line_lenient (ascii "a\nb") 3 (ascii "xyz")
  exact ⟨h.1, h.2.1, h.2.2 (by decide)⟩

/-- C4 counterexample: three persistent-variant bodies outside the amended
side conditions, each answered 2.04 UPDATED by the PUT yet not returned by
the next GET: a body with a newline (the GET returns only the text after
it), a body ending in carriage return (the GET returns it stripped), and
an empty body over a history file whose unterminated last line contains
payload= (the GET falls back to the history and returns a non-empty
string, not the stored empty body). -/
theorem persist_put_special_bodies_not_returned :
    ((persist_dispatch 3 (ascii "sensor") [97, 10, 98] ⟨[], []⟩ true true
        (ascii "2025-01-01T00:00:00Z")).1 = 0x44 ∧
      (persist_dispatch 3 (ascii "sensor") [97, 10, 98] ⟨[], []⟩ true true
        (ascii "2025-01-01T00:00:00Z")).2.1 = ascii "UPDATED" ∧
      (persist_dispatch 1 (ascii "sensor") []
        (persist_dispatch 3 (ascii "sensor") [97, 10, 98] ⟨[], []⟩ true true
          (ascii "2025-01-01T00:00:00Z")).2.2
        true true []).2.1 = [98] ∧
      [98] ≠ [97, 10, 98]) ∧
    ((persist_dispatch 3 (ascii "sensor") [97, 13] ⟨[], []⟩ true true
        (ascii "2025-01-01T00:00:00Z")).1 = 0x44 ∧
      (persist_dispatch 1 (ascii "sensor") []
        (persist_dispatch 3 (ascii "sensor") [97, 13] ⟨[], []⟩ true true
          (ascii "2025-01-01T00:00:00Z")).2.2
        true true []).2.1 = [97] ∧
      [97] ≠ [97, 13]) ∧
    ((persist_dispatch 3 (ascii "sensor") [] ⟨[], ascii "Xpayload=B"⟩ true true
        (ascii "2025-01-01T00:00:00Z")).1 = 0x44 ∧
      (persist_dispatch 1 (ascii "sensor") []
        (persist_dispatch 3 (ascii "sensor") [] ⟨[], ascii "Xpayload=B"⟩ true true
          (ascii "2025-01-01T00:00:00Z")).2.2
        true true []).2.1 ≠ ([] : List Nat)) := by
  decide

/-- C4 (corrected).  After a PUT sensor whose derived body text is v (the
payload truncated to 1023 bytes and cut at the first NUL byte), answered
2.04 UPDATED, a GET sensor with no intervening write answers 2.05 with
exactly v and leaves the state unchanged: unconditionally in the volatile
variant, and in the persistent variant (under succeeding writes) provided
v is non-empty, contains no newline and does not end in a carriage
return. -/
theorem put_then_get_returns_value (payload st b2 : List Nat) (fs : FS)
    (iso : List Nat) (curOk histOk : Bool) :
    (vol_dispatch 3 (ascii "sensor") (c_body payload) st
        = (0x44, ascii "UPDATED", c_body payload) ∧
      vol_dispatch 1 (ascii "sensor") b2 (c_body payload)
        = (0x45, c_body payload, c_body payload)) ∧
    (c_body payload ≠ [] → 10 ∉ c_body payload →
      (c_body payload).getLast? ≠ some 13 →
      ∃ fs2 : FS,
        persist_dispatch 3 (ascii "sensor") (c_body payload) fs true true iso
            = (0x44, ascii "UPDATED", fs2) ∧
        persist_dispatch 1 (ascii "sensor") b2 fs2 curOk histOk iso
            = (0x45, c_body payload, fs2)) := by
  have hcb : cstr (c_body payload) = c_body payload := c_body_cstr payload
  have hlen : (c_body payload).length ≤ 1023 := c_body_length payload
  have hsen : cstr (ascii "sensor") = ascii "sensor" := by decide
  have hne : ¬(ascii "sensor" = ascii "echo") := by decide
  constructor
  · constructor
    · unfold vol_dispatch
      rw [hsen, if_neg (by simp [hne]), if_pos rfl, if_pos rfl, hcb,
        List.take_of_length_le hlen]
    · unfold vol_dispatch
      rw [hsen, if_neg (by simp [hne]), if_pos rfl, if_neg (by omega),
        if_pos rfl, hcb, List.take_of_length_le (by omega)]
  · intro hv h10 h13
    refine ⟨⟨c_body payload ++ [10],
      fs.hist ++ cstr iso ++ ascii " payload=" ++ c_body payload ++ [10]⟩, ?_, ?_⟩
    · unfold persist_dispatch
      rw [hsen, if_neg (by omega), if_neg (by simp [hne]), if_pos ⟨rfl, rfl⟩]
      unfold write_current_and_history
      simp [hcb]
    · unfold persist_dispatch
      rw [hsen, if_pos ⟨rfl, rfl⟩]
      have hrl : read_last_line (c_body payload ++ [10]) = some (c_body payload) :=
        read_last_line_push _ hv h10 (c_body_no_nul payload) h13 (by omega)
      rw [hrl]
      dsimp only
      rw [List.take_of_length_le (by omega)]

/-- C4 witness: PUT sensor with body 23.5 then GET sensor, in both
variants, starting from empty state. -/
theorem put_then_get_returns_value_witness :
    (vol_dispatch 3 (ascii "sensor") (c_body (ascii "23.5")) []
        = (0x44, ascii "UPDATED", c_body (ascii "23.5")) ∧
      vol_dispatch 1 (ascii "sensor") [] (c_body (ascii "23.5"))
        = (0x45, c_body (ascii "23.5"), c_body (ascii "23.5"))) ∧
    (∃ fs2 : FS,
      persist_dispatch 3 (ascii "sensor") (c_body (ascii "23.5")) ⟨[], []⟩ true true
          (ascii "2025-01-01T00:00:00Z")
          = (0x44, ascii "UPDATED", fs2) ∧
      persist_dispatch 1 (ascii "sensor") [] fs2 true true
          (ascii "2025-01-01T00:00:00Z")
          = (0x45, c_body (ascii "23.5"), fs2)) := by
  have h := put_then_get_returns_value (ascii "23.5") [] [] ⟨[], []⟩
    (ascii "2025-01-01T00:00:00Z") true true
  exact ⟨h.1, h.2 (by decide) (by decide) (by decide)⟩

/-- C9 (confirmed).  For every buffer that decodes with no payload marker
(so the option loop consumed it completely), the same buffer with a single
0xFF appended — a final payload marker with zero bytes after it — still
parses, now with an empty payload, instead of failing. -/
theorem parse_trailing_marker_empty_payload (buf : List Nat) (r : coap_req)
    (h : coap_parse buf = some r) (hp : r.payload = none) :
    coap_parse (buf ++ [255]) = some { r with payload := some [] } := by
  unfold coap_parse at h ⊢
  by_cases h4 : buf.length < 4
  · rw [if_pos h4] at h
    cases h
  rw [if_neg h4] at h
  dsimp only at h ⊢
  have hlen : (buf ++ [255]).length = buf.length + 1 := by simp
  rw [hlen, if_neg (by omega)]
  have g0 : (buf ++ [255]).getD 0 0 = buf.getD 0 0 := List.getD_append _ _ _ _ (by omega)
  have g1 : (buf ++ [255]).getD 1 0 = buf.getD 1 0 := List.getD_append _ _ _ _ (by omega)
  have g2 : (buf ++ [255]).getD 2 0 = buf.getD 2 0 := List.getD_append _ _ _ _ (by omega)
  have g3 : (buf ++ [255]).getD 3 0 = buf.getD 3 0 := List.getD_append _ _ _ _ (by omega)
  rw [g0, g1, g2, g3]
  by_cases hv : (buf.getD 0 0 >>> 6) &&& 3 ≠ 1
  · rw [if_pos hv] at h
    cases h
  rw [if_neg hv] at h ⊢
  by_cases htkl : 4 + (buf.getD 0 0 &&& 15) > buf.length ∨ buf.getD 0 0 &&& 15 > 8
  · rw [if_pos htkl] at h
    cases h
  rw [if_neg htkl] at h
  rw [if_neg (by omega)]
  have hdrop : (buf ++ [255]).drop (4 + (buf.getD 0 0 &&& 15))
      = buf.drop (4 + (buf.getD 0 0 &&& 15)) ++ [255] :=
    List.drop_append_of_le_length (by omega)
  have hdrop4 : (buf ++ [255]).drop 4 = buf.drop 4 ++ [255] :=
    List.drop_append_of_le_length (by omega)
  have htok : List.take (buf.getD 0 0 &&& 15) (buf.drop 4 ++ [255])
      = List.take (buf.getD 0 0 &&& 15) (buf.drop 4) :=
    List.take_append_of_le_length (by rw [List.length_drop]; omega)
  rw [hdrop, hdrop4, htok]
  cases hpo : parse_opts (buf.drop (4 + (buf.getD 0 0 &&& 15))) 0 [] with
  | none =>
    rw [hpo] at h
    cases h
  | some pr =>
    obtain ⟨p, pl⟩ := pr
    rw [hpo] at h
    dsimp only at h
    cases h
    simp only at hp
    subst hp
    rw [parse_opts_append_marker hpo]

/-- C9 witness: the minimal header-only request, with and without a
trailing payload marker. -/
theorem parse_trailing_marker_empty_payload_witness :
    coap_parse [64, 1, 0, 0, 255] = some ⟨0, 0, 1, 0, [], [], some []⟩ := by
  have h := parse_trailing_marker_empty_payload [64, 1, 0, 0]
    ⟨0, 0, 1, 0, [], [], none⟩ (by decide) (by decide)
  rw [show ([64, 1, 0, 0, 255] : List Nat) = [64, 1, 0, 0] ++ [255] from rfl, h]

/-- C2 counterexample: buildPost masks an option length to four bits and
never emits extension bytes, so a Uri-Path segment of 13 bytes makes the
decoder consume a spurious extension byte and the datagram fails to parse
at all — nothing is recovered. -/
theorem buildPost_thirteen_byte_segment_breaks :
    coap_parse (buildPost (List.replicate 13 97) [98] [] 5) = none := by
  decide

/-- Parsing a request whose first six bytes are a version-1 header with
token length 2: the option loop runs on the remaining bytes. -/
lemma coap_parse_cons6 (b0 b1 b2 b3 t4 t5 : Nat) (tail : List Nat)
    (hb0v : (b0 >>> 6) &&& 3 = 1) (htkl : b0 &&& 15 = 2) :
    coap_parse (b0 :: b1 :: b2 :: b3 :: t4 :: t5 :: tail)
      = match parse_opts tail 0 [] with
        | none => none
        | some (path, payload) =>
          some { type := (b0 >>> 4) &&& 3, tkl := 2, code := b1,
                 mid := b2 <<< 8 ||| b3, token := [t4, t5],
                 uri_path := path, payload := payload } := by
  unfold coap_parse
  rw [if_neg (by simp)]
  dsimp only
  rw [show (b0 :: b1 :: b2 :: b3 :: t4 :: t5 :: tail).getD 0 0 = b0 from rfl,
    show (b0 :: b1 :: b2 :: b3 :: t4 :: t5 :: tail).getD 1 0 = b1 from rfl,
    show (b0 :: b1 :: b2 :: b3 :: t4 :: t5 :: tail).getD 2 0 = b2 from rfl,
    show (b0 :: b1 :: b2 :: b3 :: t4 :: t5 :: tail).getD 3 0 = b3 from rfl,
    hb0v, htkl]
  rw [if_neg (by simp), if_neg (by simp)]
  rw [show List.drop (4 + 2) (b0 :: b1 :: b2 :: b3 :: t4 :: t5 :: tail) = tail from rfl,
    show List.take 2 (List.drop 4 (b0 :: b1 :: b2 :: b3 :: t4 :: t5 :: tail))
      = [t4, t5] from rfl]

/-- C2 (corrected).  For every request built by the Arduino client — two
non-empty NUL-free Uri-Path segments of at most 12 bytes each, any JSON
payload, any 16-bit message id — coap_parse recovers the type (CON), the
two-byte token equal to the message id, the message id, the joined
two-segment path, and the payload. -/
theorem buildPost_roundtrip (p1 p2 json : List Nat) (msgId : Nat)
    (hm : msgId < 65536)
    (h1 : p1 ≠ []) (h2 : p2 ≠ [])
    (l1 : p1.length ≤ 12) (l2 : p2.length ≤ 12)
    (z1 : 0 ∉ p1) (z2 : 0 ∉ p2) :
    coap_parse (buildPost p1 p2 json msgId)
      = some { type := 0, tkl := 2, code := 2, mid := msgId,
               token := [(msgId >>> 8) &&& 255, msgId &&& 255],
               uri_path := p1 ++ 47 :: p2, payload := some json } := by
  have hb1 : addOpt_bytes 11 p1 = (16 * 11 + p1.length) :: p1 :=
    addOpt_bytes_eq 11 p1 (by omega) (by omega)
  have hb2 : addOpt_bytes 0 p2 = (16 * 0 + p2.length) :: p2 :=
    addOpt_bytes_eq 0 p2 (by omega) (by omega)
  have hhd : ((1 : Nat) <<< 6) ||| (0 <<< 4) ||| 2 = 66 := by decide
  unfold buildPost
  rw [if_neg h1, if_neg h2, if_neg h1,
    if_neg (show ¬(p1 = [] ∧ p2 = []) from fun hx => h1 hx.1), hb1, hb2, hhd]
  simp only [List.cons_append, List.nil_append]
  rw [coap_parse_cons6 _ _ _ _ _ _ _ (by decide) (by decide)]
  simp only [List.append_assoc, List.cons_append]
  have hopts : parse_opts
      ((16 * 11 + p1.length) :: (p1 ++ (16 * 0 + p2.length) :: (p2 ++
        (addOpt_bytes (12 - 11) [50] ++ 255 :: json)))) 0 []
      = some (p1 ++ 47 :: p2, some json) := by
    rw [parse_opts_cons_short (by omega : (11 : Nat) < 13) (by omega : p1.length < 13)
      ((16 * 0 + p2.length) :: (p2 ++ (addOpt_bytes (12 - 11) [50] ++ 255 :: json)))
      rfl 0 []]
    rw [show (0 + 11 : Nat) = 11 from rfl, if_pos rfl,
      append_uri_segment_nil h1 (by omega)]
    rw [parse_opts_cons_short (by omega : (0 : Nat) < 13) (by omega : p2.length < 13)
      (addOpt_bytes (12 - 11) [50] ++ 255 :: json) rfl 11 p1]
    rw [show (11 + 0 : Nat) = 11 from rfl, if_pos rfl,
      append_uri_segment_cons h1 h2 (by omega)]
    rw [show addOpt_bytes (12 - 11) [50] ++ 255 :: json
        = (16 * 1 + 1) :: ([50] ++ 255 :: json) from by
      rw [show (12 - 11 : Nat) = 1 from rfl,
        addOpt_bytes_eq 1 [50] (by omega) (by decide)]
      rfl]
    rw [parse_opts_cons_short (by omega : (1 : Nat) < 13) (by omega : (1 : Nat) < 13)
      (255 :: json) (show ([50] : List Nat).length = 1 from rfl) 11 (p1 ++ 47 :: p2)]
    rw [if_neg (by omega)]
    exact parse_opts_marker json (11 + 1) (p1 ++ 47 :: p2)
  rw [hopts]
  dsimp only
  rw [show ((66 : Nat) >>> 4) &&& 3 = 0 from by decide, mid_roundtrip msgId hm]

/-- C2 witness: a concrete two-segment client request round-trips. -/
theorem buildPost_roundtrip_witness :
    coap_parse (buildPost (ascii "api") (ascii "sensores") (ascii "\x7bd:1\x7d") 4660)
      = some { type := 0, tkl := 2, code := 2, mid := 4660,
               token := [18, 52],
               uri_path := ascii "api/sensores",
               payload := some (ascii "\x7bd:1\x7d") } := by
  have h := buildPost_roundtrip (ascii "api") (ascii "sensores")
    (ascii "\x7bd:1\x7d") 4660 (by decide) (by decide) (by decide)
    (by decide) (by decide) (by decide) (by decide)
  rw [h]
  decide

end CoapModel
